import Mathlib

/-!
Shallow embedding of the sfizz editor widget file
`src/editor/src/editor/GUIComponents.cpp`.

Coordinates (`CCoord`, a C++ `double` used here only for exact
layout arithmetic) are modelled as rationals; MIDI key indices as
naturals; C++ `int`/`int32_t` as `Int`.  Toolkit base-class pieces
(VSTGUI) that the widgets read or write — `CRect`, `CColor`,
`CControl`'s stored value and tag, `IDataPackage` — are modelled as
plain records; `CControl::setValue` / `getValue` are modelled as a
field assignment / read of the stored value.  Listener callbacks are
modelled by returning notification traces alongside the new state.
-/

/-- VSTGUI `CColor`: rgba bytes. -/
structure CColor where
  r : Nat
  g : Nat
  b : Nat
  a : Nat
deriving DecidableEq, Repr

/-- VSTGUI `CRect` with rational coordinates. -/
structure CRect where
  left : ℚ
  top : ℚ
  right : ℚ
  bottom : ℚ
deriving DecidableEq, Repr

def CRect.getWidth (rc : CRect) : ℚ := rc.right - rc.left

def CRect.getHeight (rc : CRect) : ℚ := rc.bottom - rc.top

/-- VSTGUI `CRect::setHeight`: keeps `top`, moves `bottom`. -/
def CRect.setHeight (rc : CRect) (h : ℚ) : CRect := { rc with bottom := rc.top + h }

/-- VSTGUI `CRect::extend(x, y)`: grows the rectangle by `x` on each
horizontal side and `y` on each vertical side (negative values shrink). -/
def CRect.extend (rc : CRect) (x y : ℚ) : CRect :=
  { left := rc.left - x, top := rc.top - y, right := rc.right + x, bottom := rc.bottom + y }

/-- C++ `std::round`: round half away from zero. -/
def roundHalfAway (x : ℚ) : ℚ :=
  if 0 ≤ x then (⌊x + 1/2⌋ : ℤ) else (⌈x - 1/2⌉ : ℤ)

/-! ## SPiano -/

/-- The state of an `SPiano` view: its view rectangle, the font size
(the only property of `font_` the layout reads) and the 128-bit key
set `keyInRange_` (`std::bitset<128>`, modelled as `Nat → Bool`;
only indices `< 128` are ever touched by the code). -/
structure SPiano where
  viewSize : CRect
  fontSize : ℚ
  keyInRange_ : Nat → Bool

def SPiano.getHeight (p : SPiano) : ℚ := p.viewSize.getHeight

def SPiano.getKeyWidth : ℚ := 6

def SPiano.getKeySwitchesHeight : ℚ := 20

def SPiano.getKeyRangesHeight : ℚ := 11

def SPiano.getOctavesHeight (p : SPiano) : ℚ := p.fontSize

def SPiano.getKeysHeight (p : SPiano) : ℚ :=
  p.getHeight -
    (SPiano.getKeySwitchesHeight + SPiano.getKeyRangesHeight + p.getOctavesHeight)

/-- `SPiano::clearKeyRanges`: `keyInRange_.reset()`. -/
def SPiano.clearKeyRanges (p : SPiano) : SPiano :=
  { p with keyInRange_ := fun _ => false }

/-- The loop body of `SPiano::addKeyRange`:
`for (int x = start; x <= end; ++x) keyInRange_.set(x);`. -/
def setKeysLoop (keys : Nat → Bool) (x e : Int) : Nat → Bool :=
  if x ≤ e then
    setKeysLoop (fun k => if (k : Int) = x then true else keys k) (x + 1) e
  else
    keys
termination_by (e + 1 - x).toNat
decreasing_by omega

/-- `SPiano::addKeyRange(start, end)`: clamp both ends into `[0, 127]`,
then set every bit of the inclusive interval. -/
def SPiano.addKeyRange (p : SPiano) (start stop : Int) : SPiano :=
  let start := min 127 (max 0 start)
  let stop := min 127 (max 0 stop)
  { p with keyInRange_ := setKeysLoop p.keyInRange_ start stop }

/-- The four zone rectangles of `SPiano::getZoneDimensions` as they are
right after the `setHeight` stacking, before the padding and centering
adjustments. -/
def SPiano.zoneDimensionsRaw (p : SPiano) : CRect × CRect × CRect × CRect :=
  let bounds := p.viewSize
  let keySwitches := bounds.setHeight SPiano.getKeySwitchesHeight
  let keyboard := CRect.setHeight { bounds with top := keySwitches.bottom } p.getKeysHeight
  let keyRanges := CRect.setHeight { bounds with top := keyboard.bottom } SPiano.getKeyRangesHeight
  let octaves := CRect.setHeight { bounds with top := keyRanges.bottom } p.getOctavesHeight
  (keySwitches, keyboard, keyRanges, octaves)

/-- `SPiano::getZoneDimensions`: the raw stacked zones, then the
paddings, then the centering offset when the keyboard is wider than
the 128 keys. -/
def SPiano.getZoneDimensions (p : SPiano) : CRect × CRect × CRect × CRect :=
  let raw := p.zoneDimensionsRaw
  let keySwitches := raw.1.extend (-2) (-2)
  let keyboard := raw.2.1.extend (-2) (-2)
  let keyRanges := raw.2.2.1.extend (-2) (-4)
  let octaves := raw.2.2.2.extend (-2) (-2)
  let keyWidth := SPiano.getKeyWidth
  let offset := roundHalfAway ((keyboard.getWidth - 128 * keyWidth) * (1/2))
  if 0 < offset then
    (keySwitches.extend (-offset) 0, keyboard.extend (-offset) 0,
     keyRanges.extend (-offset) 0, octaves.extend (-offset) 0)
  else
    (keySwitches, keyboard, keyRanges, octaves)

/-! ## The key-range scan of `SPiano::draw` -/

/-- The inner `while` of the scan:
`while (rangeEnd + 1 < 128 && keyInRange_[rangeEnd + 1]) ++rangeEnd;`. -/
def findRangeEnd (b : Nat → Bool) (e : Nat) : Nat :=
  if e + 1 < 128 ∧ b (e + 1) = true then findRangeEnd b (e + 1) else e
termination_by 128 - e
decreasing_by omega

theorem le_findRangeEnd (b : Nat → Bool) (e : Nat) : e ≤ findRangeEnd b e := by
  unfold findRangeEnd
  split
  · have := le_findRangeEnd b (e + 1)
    omega
  · exact Nat.le_refl e
termination_by 128 - e
decreasing_by omega

/-- The next value taken by the loop variable `rangeStart` after one
iteration of the outer `for` of the scan. -/
def scanStep (b : Nat → Bool) (s : Nat) : Nat :=
  if b s then findRangeEnd b s + 1 else s + 1

/-- The outer `for (int rangeStart = 0; rangeStart < 128;)` loop of
`SPiano::draw`, returning the emitted `(rangeStart, rangeEnd)` runs in
order. -/
def scanRuns (b : Nat → Bool) (s : Nat) : List (Nat × Nat) :=
  if s < 128 then
    if b s then
      (s, findRangeEnd b s) :: scanRuns b (findRangeEnd b s + 1)
    else
      scanRuns b (s + 1)
  else
    []
termination_by 128 - s
decreasing_by
  all_goals (have hfr := le_findRangeEnd b s; omega)

/-- The key ranges highlighted by `SPiano::draw`. -/
def keyRanges (b : Nat → Bool) : List (Nat × Nat) := scanRuns b 0

/-- The highlighted rectangle drawn for one run, as a function of the
key-ranges zone rectangle. -/
def rangeRect (rectKeyRanges : CRect) (run : Nat × Nat) : CRect :=
  { left := rectKeyRanges.left + run.1 * SPiano.getKeyWidth,
    top := rectKeyRanges.top,
    right := rectKeyRanges.left + (run.2 + 1 : ℚ) * SPiano.getKeyWidth,
    bottom := rectKeyRanges.bottom }

/-! ## Menus -/

/-- A VSTGUI `CMenuItem` as built by this file: a title and item flags. -/
structure CMenuItem where
  title : String
  flags : Int
deriving DecidableEq, Repr

/-- `CMenuItem::kSeparator` flag bit. -/
def CMenuItem.kSeparator : Int := 8

/-- The state of an `SValueMenu`: the stored control value of the
`CParamDisplay` base and the two parallel per-entry lists. -/
structure SValueMenu where
  value : ℚ
  menuItems_ : List CMenuItem
  menuItemValues_ : List ℚ
deriving DecidableEq, Repr

/-- `SValueMenu` as constructed: both entry lists start empty. -/
def SValueMenu.init (value : ℚ) : SValueMenu :=
  { value := value, menuItems_ := [], menuItemValues_ := [] }

def SValueMenu.getNbEntries (m : SValueMenu) : Int := m.menuItems_.length

/-- `SValueMenu::addEntry(CMenuItem*, float, int32_t)`: append when the
index is out of range, insert at `index` otherwise. -/
def SValueMenu.addEntry (m : SValueMenu) (item : CMenuItem) (value : ℚ) (index : Int) :
    SValueMenu :=
  if index < 0 ∨ index > m.getNbEntries then
    { m with menuItems_ := m.menuItems_ ++ [item],
             menuItemValues_ := m.menuItemValues_ ++ [value] }
  else
    { m with menuItems_ := m.menuItems_.insertIdx index.toNat item,
             menuItemValues_ := m.menuItemValues_.insertIdx index.toNat value }

/-- `SValueMenu::addSeparator`. -/
def SValueMenu.addSeparator (m : SValueMenu) (index : Int) : SValueMenu :=
  m.addEntry { title := "", flags := CMenuItem.kSeparator } 0 index

/-- `SValueMenu::addEntry(const UTF8String&, float, int32_t, int32_t)`:
a title of `"-"` adds a separator, anything else a fresh item. -/
def SValueMenu.addEntryTitled (m : SValueMenu) (title : String) (value : ℚ)
    (index : Int) (itemFlags : Int) : SValueMenu :=
  if title = "-" then m.addSeparator index
  else m.addEntry { title := title, flags := itemFlags } value index

/-- `SValueMenu::onItemClicked`: set the control value to the entry's
stored value and notify (`valueChanged`) exactly when the value read
back differs from the old one.  Returns the new state and the number
of `valueChanged` notifications. -/
def SValueMenu.onItemClicked (m : SValueMenu) (index : Nat) : SValueMenu × Nat :=
  let oldValue := m.value
  let m1 := { m with value := m.menuItemValues_.getD index 0 }
  if m1.value ≠ oldValue then (m1, 1) else (m1, 0)

/-- The state of an `SActionMenu`: the `CControl` tag and value, the
hover bookkeeping, and the two parallel per-entry lists.
`hasListener` models whether `listener` is non-null. -/
structure SActionMenu where
  tag : Int
  value : ℚ
  title_ : String
  menuItems_ : List CMenuItem
  menuItemTags_ : List Int
  hasListener : Bool
  fontColor : CColor
  hoverColor_ : CColor
  hovered_ : Bool
deriving DecidableEq, Repr

def SActionMenu.getNbEntries (m : SActionMenu) : Int := m.menuItems_.length

/-- `SActionMenu::addEntry(CMenuItem*, int32_t, int32_t)`. -/
def SActionMenu.addEntry (m : SActionMenu) (item : CMenuItem) (tag : Int) (index : Int) :
    SActionMenu :=
  if index < 0 ∨ index > m.getNbEntries then
    { m with menuItems_ := m.menuItems_ ++ [item],
             menuItemTags_ := m.menuItemTags_ ++ [tag] }
  else
    { m with menuItems_ := m.menuItems_.insertIdx index.toNat item,
             menuItemTags_ := m.menuItemTags_.insertIdx index.toNat tag }

/-- `SActionMenu::addSeparator`. -/
def SActionMenu.addSeparator (m : SActionMenu) (index : Int) : SActionMenu :=
  m.addEntry { title := "", flags := CMenuItem.kSeparator } 0 index

/-- `SActionMenu::addEntry(const UTF8String&, int32_t, int32_t, int32_t)`. -/
def SActionMenu.addEntryTitled (m : SActionMenu) (title : String) (tag : Int)
    (index : Int) (itemFlags : Int) : SActionMenu :=
  if title = "-" then m.addSeparator index
  else m.addEntry { title := title, flags := itemFlags } tag index

/-- `SActionMenu::onItemClicked`: set the tag from the entry, pulse the
value to `1.0` then back to `0.0`, notifying the listener (when
attached) after each assignment.  The trace records the control value
the listener observes at each `valueChanged` call. -/
def SActionMenu.onItemClicked (m : SActionMenu) (index : Nat) : SActionMenu × List ℚ :=
  let m1 := { m with tag := m.menuItemTags_.getD index 0 }
  let m2 := { m1 with value := 1 }
  let t1 : List ℚ := if m2.hasListener then [m2.value] else []
  let m3 := { m2 with value := 0 }
  let t2 : List ℚ := if m3.hasListener then [m3.value] else []
  (m3, t1 ++ t2)

/-- `SActionMenu::draw`: backs up `fontColor`, swaps in the hover color
while hovered, lets `CParamDisplay::draw` paint the text with the
current `fontColor`, and restores.  Returns the color the text was
painted with and the state after the call. -/
def SActionMenu.draw (m : SActionMenu) : CColor × SActionMenu :=
  let backupColor := m.fontColor
  let m1 := if m.hovered_ then { m with fontColor := m.hoverColor_ } else m
  let painted := m1.fontColor
  let m2 := if m1.hovered_ then { m1 with fontColor := backupColor } else m1
  (painted, m2)

/-- VSTGUI `CPoint` (only carried through, never inspected). -/
structure CPoint where
  x : ℚ
  y : ℚ
deriving DecidableEq, Repr

/-- `SActionMenu::onMouseEntered`: sets the hover flag. -/
def SActionMenu.onMouseEntered (m : SActionMenu) (wh : CPoint) (buttons : Nat) :
    SActionMenu :=
  { m with hovered_ := true }

/-- `SActionMenu::onMouseExited`: clears the hover flag. -/
def SActionMenu.onMouseExited (m : SActionMenu) (wh : CPoint) (buttons : Nat) :
    SActionMenu :=
  { m with hovered_ := false }

/-! ## STextButton -/

/-- The state of an `STextButton`: the `CTextButton` base's `textColor`
and the hover/inactive bookkeeping. -/
structure STextButton where
  textColor : CColor
  hoverColor_ : CColor
  inactiveColor_ : CColor
  hovered_ : Bool
  inactive_ : Bool
deriving DecidableEq, Repr

def STextButton.setInactive (btn : STextButton) (b : Bool) : STextButton :=
  { btn with inactive_ := b }

/-- `STextButton::draw`: backs up `textColor`, swaps in the hover color
while hovered (else the inactive color while inactive), lets
`CTextButton::draw` paint with the current `textColor`, and restores
unconditionally.  Returns the painted color and the state after. -/
def STextButton.draw (btn : STextButton) : CColor × STextButton :=
  let backupColor := btn.textColor
  let b1 :=
    if btn.hovered_ then { btn with textColor := btn.hoverColor_ }
    else if btn.inactive_ then { btn with textColor := btn.inactiveColor_ }
    else btn
  let painted := b1.textColor
  let b2 := { b1 with textColor := backupColor }
  (painted, b2)

/-- `STextButton::onMouseEntered`. -/
def STextButton.onMouseEntered (btn : STextButton) (wh : CPoint) (buttons : Nat) :
    STextButton :=
  { btn with hovered_ := true }

/-- `STextButton::onMouseExited`. -/
def STextButton.onMouseExited (btn : STextButton) (wh : CPoint) (buttons : Nat) :
    STextButton :=
  { btn with hovered_ := false }

/-! ## SFileDropTarget -/

/-- VSTGUI `DragOperation`. -/
inductive DragOperation where
  | Copy
  | Move
  | None
deriving DecidableEq, Repr

/-- VSTGUI `IDataPackage::Type`. -/
inductive DataPackageType where
  | kFilePath
  | kText
  | kBinary
  | kError
deriving DecidableEq, Repr

/-- A VSTGUI `IDataPackage`: a list of typed entries; the bytes of an
entry are modelled as a `String` (the code turns them into
`std::string` directly). -/
structure IDataPackage where
  entries : List (DataPackageType × String)
deriving DecidableEq, Repr

def IDataPackage.getCount (package : IDataPackage) : Nat := package.entries.length

def IDataPackage.getDataType (package : IDataPackage) (index : Nat) : DataPackageType :=
  (package.entries.getD index (DataPackageType.kError, "")).1

/-- `getData(0, bytes, type)` followed by the `std::string` build. -/
def IDataPackage.getData0 (package : IDataPackage) : String :=
  (package.entries.getD 0 (DataPackageType.kError, "")).2

/-- `SFileDropTarget::isFileDrop`: exactly one entry, of file-path type. -/
def isFileDrop (package : IDataPackage) : Bool :=
  package.getCount = 1 && package.getDataType 0 = DataPackageType.kFilePath

/-- The state of an `SFileDropTarget`: the stored drag operation and
whether a drop callback is registered (`dropFunction_` non-empty). -/
structure SFileDropTarget where
  op_ : DragOperation
  hasDropFunction : Bool
deriving DecidableEq, Repr

/-- `SFileDropTarget::onDragEnter`: store and return `Copy` for a
single file-path package, `None` otherwise. -/
def SFileDropTarget.onDragEnter (s : SFileDropTarget) (drag : IDataPackage) :
    SFileDropTarget × DragOperation :=
  let op := if isFileDrop drag then DragOperation.Copy else DragOperation.None
  ({ s with op_ := op }, op)

/-- `SFileDropTarget::onDragMove`: returns the stored operation. -/
def SFileDropTarget.onDragMove (s : SFileDropTarget) (drag : IDataPackage) :
    DragOperation :=
  s.op_

/-- `SFileDropTarget::onDragLeave`: resets the stored operation. -/
def SFileDropTarget.onDragLeave (s : SFileDropTarget) (drag : IDataPackage) :
    SFileDropTarget :=
  { s with op_ := DragOperation.None }

/-- `SFileDropTarget::onDrop`: rejects unless the stored operation is
`Copy` and the package is again a single file path; otherwise builds
the path from entry 0 and calls the drop callback when registered.
Returns the `bool` result and the path the callback received, if it
was called. -/
def SFileDropTarget.onDrop (s : SFileDropTarget) (data : IDataPackage) :
    Bool × Option String :=
  if s.op_ ≠ DragOperation.Copy ∨ ¬ isFileDrop data then
    (false, Option.none)
  else
    let path := data.getData0
    (true, if s.hasDropFunction then Option.some path else Option.none)

/-! ## Concrete sample states (used by witnesses) -/

/-- A bit set holding exactly the keys 3..5. -/
def sampleBits : Nat → Bool := fun k => decide (3 ≤ k ∧ k ≤ 5)

/-- A sample piano state. -/
def samplePiano : SPiano :=
  { viewSize := { left := 0, top := 0, right := 800, bottom := 100 },
    fontSize := 12,
    keyInRange_ := sampleBits }

/-- A sample value menu with two entries. -/
def sampleValueMenu : SValueMenu :=
  { value := 0,
    menuItems_ := [{ title := "A", flags := 0 }, { title := "B", flags := 0 }],
    menuItemValues_ := [5, 7] }

/-- A sample action menu with one entry. -/
def sampleActionMenu : SActionMenu :=
  { tag := 0, value := 0, title_ := "menu",
    menuItems_ := [{ title := "A", flags := 0 }],
    menuItemTags_ := [42],
    hasListener := true,
    fontColor := { r := 1, g := 2, b := 3, a := 255 },
    hoverColor_ := { r := 9, g := 9, b := 9, a := 255 },
    hovered_ := false }

/-- A drag package holding a single file path. -/
def sampleFilePackage : IDataPackage :=
  { entries := [(DataPackageType.kFilePath, "/tmp/a.sfz")] }

/-- A file-drop target that has not seen a drag yet. -/
def sampleDropTarget : SFileDropTarget :=
  { op_ := DragOperation.None, hasDropFunction := true }

/-! ## Lemmas about the key-range scan -/

theorem findRangeEnd_lt (b : Nat → Bool) (e : Nat) (he : e < 128) :
    findRangeEnd b e < 128 := by
  unfold findRangeEnd
  split
  · rename_i h
    exact findRangeEnd_lt b (e + 1) h.1
  · exact he
termination_by 128 - e
decreasing_by omega

theorem findRangeEnd_bits (b : Nat → Bool) (e : Nat) :
    ∀ k, e < k → k ≤ findRangeEnd b e → b k = true := by
  unfold findRangeEnd
  split
  · rename_i h
    intro k hk1 hk2
    rcases Nat.lt_or_ge (e + 1) k with h1 | h1
    · exact findRangeEnd_bits b (e + 1) k h1 hk2
    · have hke : k = e + 1 := by omega
      rw [hke]
      exact h.2
  · intro k hk1 hk2
    omega
termination_by 128 - e
decreasing_by omega

theorem findRangeEnd_max (b : Nat → Bool) (e : Nat) (he : e < 128) :
    findRangeEnd b e = 127 ∨ b (findRangeEnd b e + 1) = false := by
  unfold findRangeEnd
  split
  · rename_i h
    exact findRangeEnd_max b (e + 1) h.1
  · rename_i h
    rw [not_and_or] at h
    rcases h with h | h
    · left
      omega
    · right
      simpa using h
termination_by 128 - e
decreasing_by omega

theorem scanRuns_mem (b : Nat → Bool) (s : Nat) :
    ∀ p ∈ scanRuns b s, s ≤ p.1 ∧ p.1 ≤ p.2 ∧ p.2 ≤ 127 ∧
      (∀ k, p.1 ≤ k → k ≤ p.2 → b k = true) ∧
      (p.2 = 127 ∨ b (p.2 + 1) = false) := by
  unfold scanRuns
  split
  · rename_i hs
    split
    · rename_i hb
      intro p hp
      rcases List.mem_cons.mp hp with rfl | hp
      · refine ⟨Nat.le_refl s, le_findRangeEnd b s, ?_, ?_, findRangeEnd_max b s hs⟩
        · have := findRangeEnd_lt b s hs
          omega
        · intro k hk1 hk2
          rcases Nat.eq_or_lt_of_le hk1 with hks | hks
          · rw [← hks]
            exact hb
          · exact findRangeEnd_bits b s k hks hk2
      · have ih := scanRuns_mem b (findRangeEnd b s + 1) p hp
        have := le_findRangeEnd b s
        exact ⟨by omega, ih.2.1, ih.2.2.1, ih.2.2.2.1, ih.2.2.2.2⟩
    · intro p hp
      have ih := scanRuns_mem b (s + 1) p hp
      exact ⟨by omega, ih.2.1, ih.2.2.1, ih.2.2.2.1, ih.2.2.2.2⟩
  · intro p hp
    exact absurd hp (List.not_mem_nil p)
termination_by 128 - s
decreasing_by
  all_goals (have hfr := le_findRangeEnd b s; omega)

theorem scanRuns_leftmax (b : Nat → Bool) (s : Nat)
    (hs : s = 0 ∨ 128 ≤ s ∨ b (s - 1) = false ∨ b s = false) :
    ∀ p ∈ scanRuns b s, p.1 = 0 ∨ b (p.1 - 1) = false := by
  unfold scanRuns
  split
  · rename_i h128
    split
    · rename_i hb
      intro p hp
      rcases List.mem_cons.mp hp with rfl | hp
      · rcases hs with h | h | h | h
        · exact Or.inl h
        · omega
        · exact Or.inr h
        · rw [hb] at h
          cases h
      · rcases findRangeEnd_max b s h128 with h127 | hfalse
        · exact scanRuns_leftmax b (findRangeEnd b s + 1)
            (Or.inr (Or.inl (by omega))) p hp
        · exact scanRuns_leftmax b (findRangeEnd b s + 1)
            (Or.inr (Or.inr (Or.inr hfalse))) p hp
    · rename_i hb
      intro p hp
      have hbf : b s = false := by simpa using hb
      exact scanRuns_leftmax b (s + 1)
        (Or.inr (Or.inr (Or.inl (by simpa using hbf)))) p hp
  · intro p hp
    exact absurd hp (List.not_mem_nil p)
termination_by 128 - s
decreasing_by
  all_goals (have hfr := le_findRangeEnd b s; omega)

theorem scanRuns_cover (b : Nat → Bool) (s : Nat) :
    ∀ k, s ≤ k → k < 128 → b k = true →
      ∃ p, p ∈ scanRuns b s ∧ p.1 ≤ k ∧ k ≤ p.2 := by
  unfold scanRuns
  split
  · rename_i h128
    split
    · rename_i hb
      intro k hsk hk128 hbk
      by_cases hke : k ≤ findRangeEnd b s
      · exact ⟨(s, findRangeEnd b s), List.mem_cons_self _ _, hsk, hke⟩
      · push_neg at hke
        have hne : k ≠ findRangeEnd b s + 1 := by
          intro heq
          rcases findRangeEnd_max b s h128 with h | h
          · omega
          · rw [heq] at hbk
            rw [hbk] at h
            cases h
        obtain ⟨p, hp, h1, h2⟩ :=
          scanRuns_cover b (findRangeEnd b s + 1) k (by omega) hk128 hbk
        exact ⟨p, List.mem_cons_of_mem _ hp, h1, h2⟩
    · rename_i hb
      intro k hsk hk128 hbk
      have hsk1 : s + 1 ≤ k := by
        rcases Nat.eq_or_lt_of_le hsk with hks | hks
        · rw [← hks] at hbk
          exact absurd hbk hb
        · omega
      exact scanRuns_cover b (s + 1) k hsk1 hk128 hbk
  · intro k hsk hk128 _
    omega
termination_by 128 - s
decreasing_by
  all_goals (have hfr := le_findRangeEnd b s; omega)

theorem scanRuns_pairwise (b : Nat → Bool) (s : Nat) :
    (scanRuns b s).Pairwise (fun p q => p.2 < q.1) := by
  unfold scanRuns
  split
  · rename_i h128
    split
    · rename_i hb
      refine List.pairwise_cons.mpr ⟨?_, scanRuns_pairwise b (findRangeEnd b s + 1)⟩
      intro q hq
      have := (scanRuns_mem b (findRangeEnd b s + 1) q hq).1
      show findRangeEnd b s < q.1
      omega
    · exact scanRuns_pairwise b (s + 1)
  · exact List.Pairwise.nil
termination_by 128 - s
decreasing_by
  all_goals (have hfr := le_findRangeEnd b s; omega)

theorem scanRuns_length (b : Nat → Bool) (s : Nat) :
    (scanRuns b s).length ≤ 128 - s := by
  unfold scanRuns
  split
  · rename_i h128
    split
    · rename_i hb
      have h1 := scanRuns_length b (findRangeEnd b s + 1)
      have h2 := le_findRangeEnd b s
      simp only [List.length_cons]
      omega
    · have := scanRuns_length b (s + 1)
      omega
  · simp
termination_by 128 - s
decreasing_by
  all_goals (have hfr := le_findRangeEnd b s; omega)

theorem pairwise_mem_unique {α : Type} {R : α → α → Prop} {l : List α}
    (hl : l.Pairwise R) {p q : α} (hp : p ∈ l) (hq : q ∈ l)
    (hnpq : ¬ R p q) (hnqp : ¬ R q p) : p = q := by
  induction l with
  | nil => exact absurd hp (List.not_mem_nil p)
  | cons a l ih =>
    rcases List.pairwise_cons.mp hl with ⟨ha, hl2⟩
    rcases List.mem_cons.mp hp with hpa | hp2
    · rcases List.mem_cons.mp hq with hqa | hq2
      · rw [hpa, hqa]
      · rw [hpa] at hnpq ⊢
        exact absurd (ha q hq2) hnpq
    · rcases List.mem_cons.mp hq with hqa | hq2
      · rw [hqa] at hnqp ⊢
        exact absurd (ha p hp2) hnqp
      · exact ih hl2 hp2 hq2

/-! ## Helper: the addKeyRange loop sets exactly the interval -/

theorem setKeysLoop_eq (keys : Nat → Bool) (x e : Int) (k : Nat) :
    setKeysLoop keys x e k =
      if x ≤ (k : Int) ∧ (k : Int) ≤ e then true else keys k := by
  unfold setKeysLoop
  split
  · rename_i hxe
    rw [setKeysLoop_eq]
    split_ifs with h1 h2 h3 <;> first | rfl | omega
  · rename_i hxe
    rw [if_neg]
    omega
termination_by (e + 1 - x).toNat
decreasing_by omega

/-! ## Claim theorems -/

/-- C2: `SPiano::addKeyRange(start, end)` clamps both arguments into
`[0, 127]` via `min(127, max(0, ·))` and then sets exactly the bits `k`
with clamped-start ≤ `k` ≤ clamped-end (none when clamped-start >
clamped-end); every other bit keeps its previous value, and in
particular bits at or above 128 are never touched, so key indices never
leave the MIDI range 0–127. -/
theorem addKeyRange_spec (p : SPiano) (start stop : Int) (k : Nat) :
    ((p.addKeyRange start stop).keyInRange_ k =
      if min 127 (max 0 start) ≤ (k : Int) ∧ (k : Int) ≤ min 127 (max 0 stop)
      then true else p.keyInRange_ k) ∧
    (128 ≤ k → (p.addKeyRange start stop).keyInRange_ k = p.keyInRange_ k) := by
  have h := setKeysLoop_eq p.keyInRange_ (min 127 (max 0 start)) (min 127 (max 0 stop)) k
  refine ⟨h, fun hk => ?_⟩
  rw [show (p.addKeyRange start stop).keyInRange_ k =
        setKeysLoop p.keyInRange_ (min 127 (max 0 start)) (min 127 (max 0 stop)) k from rfl,
      setKeysLoop_eq, if_neg]
  omega

/-- Witness for `addKeyRange_spec` at a concrete call. -/
theorem addKeyRange_spec_witness :
    ((samplePiano.addKeyRange 60 64).keyInRange_ 62 =
      if min 127 (max 0 60) ≤ (62 : Int) ∧ (62 : Int) ≤ min 127 (max 0 64)
      then true else samplePiano.keyInRange_ 62) ∧
    (128 ≤ 130 ∧
      (samplePiano.addKeyRange 60 64).keyInRange_ 130 = samplePiano.keyInRange_ 130) :=
  ⟨(addKeyRange_spec samplePiano 60 64 62).1, by decide,
    (addKeyRange_spec samplePiano 60 64 130).2 (by decide)⟩

/-- C3: before the padding and centering adjustments, the four zone
rectangles of `SPiano::getZoneDimensions` partition the view's vertical
extent: the key-switch zone starts at the view's top, each zone's top
is the previous zone's bottom, the zone heights are 20,
`getKeysHeight()`, 11 and the font size, those heights sum to the
view's height, and the octave zone's bottom is the view's bottom. -/
theorem zoneDimensions_partition (p : SPiano) :
    (p.zoneDimensionsRaw.1.top = p.viewSize.top) ∧
    (p.zoneDimensionsRaw.2.1.top = p.zoneDimensionsRaw.1.bottom) ∧
    (p.zoneDimensionsRaw.2.2.1.top = p.zoneDimensionsRaw.2.1.bottom) ∧
    (p.zoneDimensionsRaw.2.2.2.top = p.zoneDimensionsRaw.2.2.1.bottom) ∧
    (p.zoneDimensionsRaw.1.getHeight = SPiano.getKeySwitchesHeight) ∧
    (p.zoneDimensionsRaw.2.1.getHeight = p.getKeysHeight) ∧
    (p.zoneDimensionsRaw.2.2.1.getHeight = SPiano.getKeyRangesHeight) ∧
    (p.zoneDimensionsRaw.2.2.2.getHeight = p.getOctavesHeight) ∧
    (SPiano.getKeySwitchesHeight + p.getKeysHeight + SPiano.getKeyRangesHeight +
        p.getOctavesHeight = p.getHeight) ∧
    (p.zoneDimensionsRaw.2.2.2.bottom = p.viewSize.bottom) := by
  refine ⟨rfl, rfl, rfl, rfl, ?_, ?_, ?_, ?_, ?_, ?_⟩ <;>
    simp only [SPiano.zoneDimensionsRaw, CRect.setHeight, CRect.getHeight,
      SPiano.getKeysHeight, SPiano.getHeight, SPiano.getOctavesHeight,
      SPiano.getKeySwitchesHeight, SPiano.getKeyRangesHeight] <;>
    ring

/-- C1: the key-range scan of `SPiano::draw` decomposes the 128-bit
`keyInRange_` set into exactly the maximal contiguous runs of set bits:
every emitted run `(rangeStart, rangeEnd)` has all its bits set, is
maximal on both sides (`rangeStart = 0` or bit `rangeStart - 1` clear;
`rangeEnd = 127` or bit `rangeEnd + 1` clear), and every set bit below
128 lies in exactly one emitted run. -/
theorem keyRanges_runs_spec (b : Nat → Bool) :
    (∀ p ∈ keyRanges b, p.1 ≤ p.2 ∧ p.2 ≤ 127 ∧
        (∀ k, p.1 ≤ k → k ≤ p.2 → b k = true) ∧
        (p.1 = 0 ∨ b (p.1 - 1) = false) ∧
        (p.2 = 127 ∨ b (p.2 + 1) = false)) ∧
    (∀ k, k < 128 → b k = true →
        ∃ p, (p ∈ keyRanges b ∧ p.1 ≤ k ∧ k ≤ p.2) ∧
          ∀ q, (q ∈ keyRanges b ∧ q.1 ≤ k ∧ k ≤ q.2) → q = p) := by
  constructor
  · intro p hp
    have hmem := scanRuns_mem b 0 p hp
    have hleft := scanRuns_leftmax b 0 (Or.inl rfl) p hp
    exact ⟨hmem.2.1, hmem.2.2.1, hmem.2.2.2.1, hleft, hmem.2.2.2.2⟩
  · intro k hk hbk
    obtain ⟨p, hp, h1, h2⟩ := scanRuns_cover b 0 k (Nat.zero_le k) hk hbk
    refine ⟨p, ⟨hp, h1, h2⟩, ?_⟩
    rintro q ⟨hq, h3, h4⟩
    exact pairwise_mem_unique (scanRuns_pairwise b 0) hq hp (by omega) (by omega)

/-- Witness for `keyRanges_runs_spec`: key 4 of the sample bit set
(keys 3..5) lies in exactly one emitted run. -/
theorem keyRanges_runs_spec_witness :
    (4 < 128 ∧ sampleBits 4 = true) ∧
    ∃ p, (p ∈ keyRanges sampleBits ∧ p.1 ≤ 4 ∧ 4 ≤ p.2) ∧
      ∀ q, (q ∈ keyRanges sampleBits ∧ q.1 ≤ 4 ∧ 4 ≤ q.2) → q = p :=
  ⟨⟨by decide, by decide⟩, (keyRanges_runs_spec sampleBits).2 4 (by decide) (by decide)⟩

/-- C8: the key-range scan terminates and is single-pass: from any
position below 128 the loop variable `rangeStart` strictly increases to
a next position of at most 128, one outer iteration emits at most one
run, the whole scan emits at most `128 - rangeStart` runs, and the
loop exits (emits nothing) once `rangeStart` reaches 128. -/
theorem scan_single_pass (b : Nat → Bool) (s : Nat) (hs : s < 128) :
    s < scanStep b s ∧ scanStep b s ≤ 128 ∧
    (scanRuns b s =
      if b s then (s, findRangeEnd b s) :: scanRuns b (scanStep b s)
      else scanRuns b (scanStep b s)) ∧
    (∀ t, 128 ≤ t → scanRuns b t = []) ∧
    (scanRuns b s).length ≤ 128 - s := by
  have hfr := le_findRangeEnd b s
  have hfrlt := findRangeEnd_lt b s hs
  refine ⟨?_, ?_, ?_, ?_, scanRuns_length b s⟩
  · unfold scanStep
    split <;> omega
  · unfold scanStep
    split <;> omega
  · have hunfold : scanRuns b s =
        if b s then (s, findRangeEnd b s) :: scanRuns b (findRangeEnd b s + 1)
        else scanRuns b (s + 1) := by
      conv_lhs => rw [scanRuns]
      rw [if_pos hs]
    rw [hunfold]
    by_cases hb : b s = true
    · rw [if_pos hb, if_pos hb, scanStep, if_pos hb]
    · rw [if_neg hb, if_neg hb, scanStep, if_neg hb]
  · intro t ht
    rw [scanRuns]
    rw [if_neg (by omega)]

/-- Witness for `scan_single_pass` at position 0 of the sample bit set. -/
theorem scan_single_pass_witness :
    (0 : Nat) < 128 ∧ 0 < scanStep sampleBits 0 :=
  ⟨by decide, (scan_single_pass sampleBits 0 (by decide)).1⟩

/-- C4: for an in-range index, `SActionMenu::onItemClicked` sets the
control's tag to `menuItemTags_[index]` and dispatches a one-shot
notification: an attached listener receives exactly two `valueChanged`
calls, the first seeing value 1.0 and the second 0.0 (none without a
listener), and the control's value is 0.0 afterwards. -/
theorem actionMenu_onItemClicked_spec (m : SActionMenu) (index : Nat)
    (h : index < m.menuItemTags_.length) :
    ((m.onItemClicked index).1.tag = m.menuItemTags_[index]) ∧
    ((m.onItemClicked index).2 = if m.hasListener then [(1 : ℚ), 0] else []) ∧
    ((m.onItemClicked index).1.value = 0) := by
  refine ⟨List.getD_eq_getElem _ _ h, ?_, rfl⟩
  by_cases hl : m.hasListener <;>
    simp [SActionMenu.onItemClicked, hl]

/-- Witness for `actionMenu_onItemClicked_spec` on the sample menu. -/
theorem actionMenu_onItemClicked_witness :
    0 < sampleActionMenu.menuItemTags_.length ∧
    (sampleActionMenu.onItemClicked 0).2 = [(1 : ℚ), 0] := by
  refine ⟨by decide, ?_⟩
  have h := (actionMenu_onItemClicked_spec sampleActionMenu 0 (by decide)).2.1
  simpa [sampleActionMenu] using h

/-- C5: for an in-range index, `SValueMenu::onItemClicked` sets the
control's value to the stored entry value `menuItemValues_[index]` and
invokes `valueChanged` exactly once if the value read back after
`setValue` differs from the value before the call, and not at all
otherwise. -/
theorem valueMenu_onItemClicked_spec (m : SValueMenu) (index : Nat)
    (h : index < m.menuItemValues_.length) :
    ((m.onItemClicked index).1.value = m.menuItemValues_[index]) ∧
    ((m.onItemClicked index).2 =
      if m.menuItemValues_[index] ≠ m.value then 1 else 0) := by
  by_cases hc : m.menuItemValues_[index] = m.value <;>
    constructor <;>
    simp [SValueMenu.onItemClicked, List.getElem?_eq_getElem h, hc]

/-- Witness for `valueMenu_onItemClicked_spec` on the sample menu. -/
theorem valueMenu_onItemClicked_witness :
    0 < sampleValueMenu.menuItemValues_.length ∧
    (sampleValueMenu.onItemClicked 0).1.value = 5 ∧
    (sampleValueMenu.onItemClicked 0).2 = 1 := by
  have h := valueMenu_onItemClicked_spec sampleValueMenu 0 (by decide)
  refine ⟨by decide, ?_, ?_⟩
  · simpa [sampleValueMenu] using h.1
  · simpa [sampleValueMenu] using h.2

/-- C6: for `SActionMenu` and `STextButton`, `onMouseEntered` sets
the hover flag and `onMouseExited` clears it; the flag only selects the
color the next draw paints with (hover color while hovered, else the
inactive color for an inactive button, else the stored color), and
after `draw` returns the whole state — in particular the stored
font/text color field — equals its value before the call, for every
combination of the hover and inactive flags. -/
theorem hover_draw_spec :
    (∀ (m : SActionMenu) (wh : CPoint) (buttons : Nat),
        (m.onMouseEntered wh buttons).hovered_ = true ∧
        (m.onMouseExited wh buttons).hovered_ = false) ∧
    (∀ (btn : STextButton) (wh : CPoint) (buttons : Nat),
        (btn.onMouseEntered wh buttons).hovered_ = true ∧
        (btn.onMouseExited wh buttons).hovered_ = false) ∧
    (∀ m : SActionMenu, m.draw.2 = m ∧
        m.draw.1 = (if m.hovered_ then m.hoverColor_ else m.fontColor)) ∧
    (∀ btn : STextButton, btn.draw.2 = btn ∧
        btn.draw.1 = (if btn.hovered_ then btn.hoverColor_
                      else if btn.inactive_ then btn.inactiveColor_
                      else btn.textColor)) := by
  refine ⟨fun m wh buttons => ⟨rfl, rfl⟩, fun btn wh buttons => ⟨rfl, rfl⟩, ?_, ?_⟩
  · rintro ⟨tag, value, ttl, items, tags, hl, fc, hocol, hov⟩
    cases hov <;> simp [SActionMenu.draw]
  · rintro ⟨tc, hocol, ic, hov, inact⟩
    cases hov <;> cases inact <;> simp [STextButton.draw]

/-- C7 counterexample: `SFileDropTarget` keeps interaction state
beyond hover/inactive booleans: two calls of `onDrop` with identical
arguments give different results depending on the stored drag
operation set by an earlier `onDragEnter`. -/
theorem drag_callback_state_dependence :
    ((SFileDropTarget.onDragEnter sampleDropTarget sampleFilePackage).1.onDrop
        sampleFilePackage).1 = true ∧
    (sampleDropTarget.onDrop sampleFilePackage).1 = false := by
  constructor <;> rfl

/-- C7 amended: the only widget in this source keeping mutable
interaction state beyond the hover/inactive booleans is
`SFileDropTarget`, whose drag callbacks store and read the current
drag operation `op_`: its `onDrop` result depends on `op_` (set by
earlier `onDragEnter`/`onDragLeave` calls) and on the dropped data,
while the hover widgets' mouse callbacks only write the hover flag,
deterministically from the call alone. -/
theorem interaction_state_spec :
    (∀ (m : SActionMenu) (wh : CPoint) (buttons : Nat),
        m.onMouseEntered wh buttons = { m with hovered_ := true } ∧
        m.onMouseExited wh buttons = { m with hovered_ := false }) ∧
    (∀ (btn : STextButton) (wh : CPoint) (buttons : Nat),
        btn.onMouseEntered wh buttons = { btn with hovered_ := true } ∧
        btn.onMouseExited wh buttons = { btn with hovered_ := false }) ∧
    (∀ (s : SFileDropTarget) (d : IDataPackage),
        (s.onDrop d).1 = (decide (s.op_ = DragOperation.Copy) && isFileDrop d)) ∧
    (∀ (s : SFileDropTarget) (d : IDataPackage),
        (s.onDragEnter d).1 =
          { s with op_ := if isFileDrop d then DragOperation.Copy
                          else DragOperation.None } ∧
        s.onDragMove d = s.op_ ∧
        s.onDragLeave d = { s with op_ := DragOperation.None }) := by
  refine ⟨fun m wh buttons => ⟨rfl, rfl⟩, fun btn wh buttons => ⟨rfl, rfl⟩, ?_,
    fun s d => ⟨rfl, rfl, rfl⟩⟩
  intro s d
  by_cases hop : s.op_ = DragOperation.Copy <;>
    by_cases hf : isFileDrop d <;>
    simp [SFileDropTarget.onDrop, hop, hf]

/-- C10: `SFileDropTarget::onDrop` returns true exactly when the
stored operation is `Copy` and the dropped package is a single file
path; the callback receives the path exactly in that case when it is
registered; `Copy` is stored by `onDragEnter` exactly for a single
file-path package; `onDragLeave` resets the stored operation to
`None`, so a drop right after leaving always returns false and never
fires the callback. -/
theorem onDrop_gating_spec :
    (∀ (s : SFileDropTarget) (d : IDataPackage),
        (s.onDrop d).1 =
          (decide (s.op_ = DragOperation.Copy) && isFileDrop d)) ∧
    (∀ (s : SFileDropTarget) (d : IDataPackage),
        (s.onDrop d).2 =
          if s.op_ = DragOperation.Copy ∧ isFileDrop d = true ∧
              s.hasDropFunction = true
          then Option.some d.getData0 else Option.none) ∧
    (∀ (s : SFileDropTarget) (d : IDataPackage),
        (s.onDragEnter d).1.op_ =
          (if isFileDrop d then DragOperation.Copy else DragOperation.None)) ∧
    (∀ (s : SFileDropTarget) (d d2 : IDataPackage),
        ((s.onDragLeave d).onDrop d2).1 = false ∧
        ((s.onDragLeave d).onDrop d2).2 = Option.none) := by
  refine ⟨?_, ?_, fun s d => rfl, ?_⟩
  · intro s d
    by_cases hop : s.op_ = DragOperation.Copy <;>
      by_cases hf : isFileDrop d <;>
      simp [SFileDropTarget.onDrop, hop, hf]
  · intro s d
    by_cases hop : s.op_ = DragOperation.Copy <;>
      by_cases hf : isFileDrop d <;>
      by_cases hdf : s.hasDropFunction <;>
      simp [SFileDropTarget.onDrop, hop, hf, hdf]
  · intro s d d2
    constructor <;> simp [SFileDropTarget.onDragLeave, SFileDropTarget.onDrop]

/-! ## Helpers for the parallel-list invariant -/

theorem valueMenu_addEntry_lengths (m : SValueMenu) (item : CMenuItem) (value : ℚ)
    (index : Int) (hlen : m.menuItems_.length = m.menuItemValues_.length) :
    (m.addEntry item value index).menuItems_.length =
        (m.addEntry item value index).menuItemValues_.length ∧
    (m.addEntry item value index).getNbEntries = m.getNbEntries + 1 := by
  unfold SValueMenu.addEntry SValueMenu.getNbEntries
  split
  · simp [hlen]
  · rename_i hidx
    push_neg at hidx
    have h1 : index.toNat ≤ m.menuItems_.length := by omega
    have h2 : index.toNat ≤ m.menuItemValues_.length := by omega
    simp only [List.length_insertIdx _ _ h1, List.length_insertIdx _ _ h2, hlen]
    exact ⟨trivial, by push_cast; ring⟩

theorem actionMenu_addEntry_lengths (m : SActionMenu) (item : CMenuItem) (tag : Int)
    (index : Int) (hlen : m.menuItems_.length = m.menuItemTags_.length) :
    (m.addEntry item tag index).menuItems_.length =
        (m.addEntry item tag index).menuItemTags_.length ∧
    (m.addEntry item tag index).getNbEntries = m.getNbEntries + 1 := by
  unfold SActionMenu.addEntry SActionMenu.getNbEntries
  split
  · simp [hlen]
  · rename_i hidx
    push_neg at hidx
    have h1 : index.toNat ≤ m.menuItems_.length := by omega
    have h2 : index.toNat ≤ m.menuItemTags_.length := by omega
    simp only [List.length_insertIdx _ _ h1, List.length_insertIdx _ _ h2, hlen]
    exact ⟨trivial, by push_cast; ring⟩

/-- C9: for both menus the item list and its parallel value/tag
list always have equal length: the invariant holds for the
freshly-constructed state and is preserved by every `addEntry` and
`addSeparator`; an out-of-range index (negative or above
`getNbEntries()`) appends the pair at the end, an in-range one inserts
item and value/tag at the same position, and `getNbEntries()` grows by
exactly one either way. -/
theorem menu_parallel_lists_invariant :
    ((SValueMenu.init 0).menuItems_.length = (SValueMenu.init 0).menuItemValues_.length) ∧
    (∀ (m : SValueMenu) (item : CMenuItem) (value : ℚ) (index : Int),
      m.menuItems_.length = m.menuItemValues_.length →
        (m.addEntry item value index).menuItems_.length =
            (m.addEntry item value index).menuItemValues_.length ∧
        (m.addEntry item value index).getNbEntries = m.getNbEntries + 1 ∧
        (if index < 0 ∨ index > m.getNbEntries
         then (m.addEntry item value index).menuItems_ = m.menuItems_ ++ [item] ∧
              (m.addEntry item value index).menuItemValues_ = m.menuItemValues_ ++ [value]
         else (m.addEntry item value index).menuItems_ =
                m.menuItems_.insertIdx index.toNat item ∧
              (m.addEntry item value index).menuItemValues_ =
                m.menuItemValues_.insertIdx index.toNat value)) ∧
    (∀ (m : SValueMenu) (index : Int),
      m.menuItems_.length = m.menuItemValues_.length →
        (m.addSeparator index).menuItems_.length =
            (m.addSeparator index).menuItemValues_.length ∧
        (m.addSeparator index).getNbEntries = m.getNbEntries + 1) ∧
    (∀ (m : SValueMenu) (title : String) (value : ℚ) (index itemFlags : Int),
      m.menuItems_.length = m.menuItemValues_.length →
        (m.addEntryTitled title value index itemFlags).menuItems_.length =
            (m.addEntryTitled title value index itemFlags).menuItemValues_.length ∧
        (m.addEntryTitled title value index itemFlags).getNbEntries =
            m.getNbEntries + 1) ∧
    (∀ (m : SActionMenu) (item : CMenuItem) (tag index : Int),
      m.menuItems_.length = m.menuItemTags_.length →
        (m.addEntry item tag index).menuItems_.length =
            (m.addEntry item tag index).menuItemTags_.length ∧
        (m.addEntry item tag index).getNbEntries = m.getNbEntries + 1 ∧
        (if index < 0 ∨ index > m.getNbEntries
         then (m.addEntry item tag index).menuItems_ = m.menuItems_ ++ [item] ∧
              (m.addEntry item tag index).menuItemTags_ = m.menuItemTags_ ++ [tag]
         else (m.addEntry item tag index).menuItems_ =
                m.menuItems_.insertIdx index.toNat item ∧
              (m.addEntry item tag index).menuItemTags_ =
                m.menuItemTags_.insertIdx index.toNat tag)) ∧
    (∀ (m : SActionMenu) (index : Int),
      m.menuItems_.length = m.menuItemTags_.length →
        (m.addSeparator index).menuItems_.length =
            (m.addSeparator index).menuItemTags_.length ∧
        (m.addSeparator index).getNbEntries = m.getNbEntries + 1) ∧
    (∀ (m : SActionMenu) (title : String) (tag index itemFlags : Int),
      m.menuItems_.length = m.menuItemTags_.length →
        (m.addEntryTitled title tag index itemFlags).menuItems_.length =
            (m.addEntryTitled title tag index itemFlags).menuItemTags_.length ∧
        (m.addEntryTitled title tag index itemFlags).getNbEntries =
            m.getNbEntries + 1) := by
  refine ⟨rfl, ?_, ?_, ?_, ?_, ?_, ?_⟩
  · intro m item value index hlen
    refine ⟨(valueMenu_addEntry_lengths m item value index hlen).1,
      (valueMenu_addEntry_lengths m item value index hlen).2, ?_⟩
    unfold SValueMenu.addEntry
    split <;> exact ⟨rfl, rfl⟩
  · intro m index hlen
    exact valueMenu_addEntry_lengths m _ 0 index hlen
  · intro m title value index itemFlags hlen
    unfold SValueMenu.addEntryTitled
    split
    · exact valueMenu_addEntry_lengths m _ 0 index hlen
    · exact valueMenu_addEntry_lengths m _ value index hlen
  · intro m item tag index hlen
    refine ⟨(actionMenu_addEntry_lengths m item tag index hlen).1,
      (actionMenu_addEntry_lengths m item tag index hlen).2, ?_⟩
    unfold SActionMenu.addEntry
    split <;> exact ⟨rfl, rfl⟩
  · intro m index hlen
    exact actionMenu_addEntry_lengths m _ 0 index hlen
  · intro m title tag index itemFlags hlen
    unfold SActionMenu.addEntryTitled
    split
    · exact actionMenu_addEntry_lengths m _ 0 index hlen
    · exact actionMenu_addEntry_lengths m _ tag index hlen

/-- Witness for `menu_parallel_lists_invariant` on the sample menus. -/
theorem menu_parallel_lists_invariant_witness :
    (sampleValueMenu.menuItems_.length = sampleValueMenu.menuItemValues_.length ∧
      (sampleValueMenu.addEntry { title := "C", flags := 0 } 9 1).menuItems_.length =
        (sampleValueMenu.addEntry { title := "C", flags := 0 } 9 1).menuItemValues_.length) ∧
    (sampleActionMenu.menuItems_.length = sampleActionMenu.menuItemTags_.length ∧
      (sampleActionMenu.addEntry { title := "C", flags := 0 } 9 0).getNbEntries =
        sampleActionMenu.getNbEntries + 1) :=
  ⟨⟨by decide,
      (menu_parallel_lists_invariant.2.1 sampleValueMenu
        { title := "C", flags := 0 } 9 1 (by decide)).1⟩,
    ⟨by decide,
      (menu_parallel_lists_invariant.2.2.2.2.1 sampleActionMenu
        { title := "C", flags := 0 } 9 0 (by decide)).2.1⟩⟩
